import Mathlib

/-!
Shallow embedding of the romm-mobile client's core logic, translated from the
TypeScript sources:

* `src/hooks/useRomFileSystem.ts` — existence reconciler (per-file cache of
  "is this ROM already downloaded", in-flight flags, batch checks, reset).
* `src/hooks/useStorageAccessFramework.ts` — the SAF capability probe and the
  two storage backends.
* the game screen's delete-file handler — backend choice for file deletion.
* `src/app/settings.tsx` — loading of the `concurrentDownloads` setting.
* the downloads screen — `formatTime` remaining-time renderer.
* the download queue manager (not present in the sources; modelled from the
  spec, see `DownloadQueue` below).

JavaScript `Record<number, boolean>` objects are modelled as `Nat → Option Bool`
(`none` = the key is absent / `undefined`). Fallible directory listings are
modelled by `ListingResult`. Machine numbers are modelled as `Nat` / `Int` / `ℚ`
(ids and byte counts are small positive integers in practice; `formatTime`
receives an arbitrary JS double, modelled by `JSNum`).
-/

/-- Models `String.prototype.includes`: `jsIncludes s sub` is true iff `sub` occurs as a
contiguous substring of `s`. -/
def jsIncludes (s sub : String) : Bool :=
  decide (sub.toList <:+: s.toList)

/-- Models `name.replace(/\.[^/.]+$/, "")` from `checkIfRomExists`: removes a final
`.ext` suffix where `ext` is nonempty and contains neither `.` nor `/`;
otherwise the string is unchanged. -/
def stripExtension (name : String) : String :=
  let rev := name.toList.reverse
  let ext := rev.takeWhile (fun c => !(c == '.' || c == '/'))
  let rest := rev.dropWhile (fun c => !(c == '.' || c == '/'))
  match rest with
  | '.' :: remaining => if ext.isEmpty then name else String.mk remaining.reverse
  | _ => name

/-- The `RomFile` record from `src/services/api.ts`. Optional hash fields are
modelled as `Option String`. -/
structure RomFile where
  id : Nat
  rom_id : Nat
  file_name : String
  file_extension : String
  file_path : String
  file_size_bytes : Nat
  md5_hash : Option String := none
  crc_hash : Option String := none
  sha1_hash : Option String := none
  deriving DecidableEq, Repr

/-- The `PlatformFolder` record from `src/hooks/usePlatformFolders.ts`. -/
structure PlatformFolder where
  platformSlug : String
  platformName : String
  folderUri : String
  folderName : String
  deriving DecidableEq, Repr

/-- Result of an asynchronous directory listing: a list of entry names, or a
thrown error. -/
inductive ListingResult where
  | ok (names : List String)
  | err
  deriving DecidableEq, Repr

/-- Environment of `useRomFileSystem`: the SAF capability probe's answer and the
two listing backends (`SAF.listFiles` and `FileSystem.Directory.list`), indexed
by folder URI. -/
structure FsEnv where
  safAvailable : Bool
  safList : String → ListingResult
  dirList : String → ListingResult

/-- The `if (isSafAvailable())` branch of `checkIfRomExists` (lines 45-55):
list the platform folder with SAF on Android non-TV, with expo-file-system
otherwise. -/
def listPlatformFolder (env : FsEnv) (uri : String) : ListingResult :=
  if env.safAvailable then env.safList uri else env.dirList uri

/-- A JS `Record<number, boolean>`: `none` models an absent key. -/
def BoolRecord : Type := Nat → Option Bool

/-- Models the JS object-spread update that overwrites one numeric key. -/
def recordSet (r : BoolRecord) (key : Nat) (value : Bool) : BoolRecord :=
  fun k => if k = key then some value else r k

/-- The two state cells of `useRomFileSystem`: `fileChecks` (existence cache)
and `checking` (in-flight flags), both keyed by `rom_id`. -/
structure RomFsState where
  fileChecks : BoolRecord
  checking : BoolRecord

/-- Fresh hook state: both records start as `{}`. -/
def initialRomFsState : RomFsState :=
  { fileChecks := fun _ => none, checking := fun _ => none }

/-- Outcome of one `checkIfRomExists` call: the returned boolean, the updated
hook state, and how many directory listings were performed. -/
structure CheckResult where
  result : Bool
  state : RomFsState
  listCalls : Nat

/-- Source `checkIfRomExists` (useRomFileSystem.ts lines 19-78). The `romFile` and
`platformFolder` arguments are optional to capture the `!romFile` and
`!platformFolder` guards; an empty `folderUri` captures the
`!platformFolder.folderUri` guard. -/
def checkIfRomExists (env : FsEnv) (romFile : Option RomFile)
    (platformFolder : Option PlatformFolder) (s : RomFsState) : CheckResult :=
  match romFile with
  | none => ⟨false, s, 0⟩
  | some romFile =>
    match platformFolder with
    | none => ⟨false, s, 0⟩
    | some pf =>
      if pf.folderUri = "" then ⟨false, s, 0⟩
      else
        let fileNameWithoutExtension := stripExtension romFile.file_name
        match listPlatformFolder env pf.folderUri with
        | ListingResult.err =>
          ⟨false, { s with fileChecks := recordSet s.fileChecks romFile.rom_id false }, 1⟩
        | ListingResult.ok fileList =>
          if fileList.any (fun file => jsIncludes file fileNameWithoutExtension) then
            ⟨true, { s with fileChecks := recordSet s.fileChecks romFile.rom_id true }, 1⟩
          else
            ⟨false, { s with fileChecks := recordSet s.fileChecks romFile.rom_id false }, 1⟩

/-- Source `isRomDownloaded` (lines 80-85): `fileChecks[romFile.rom_id] || false`. -/
def isRomDownloaded (s : RomFsState) (romFile : RomFile) : Bool :=
  (s.fileChecks romFile.rom_id).getD false

/-- Source `isCheckingRom` (lines 87-92): `checking[romFile.rom_id] || false`. -/
def isCheckingRom (s : RomFsState) (romFile : RomFile) : Bool :=
  (s.checking romFile.rom_id).getD false

/-- The filter of `checkMultipleRoms` (lines 100-103):
`fileChecks[rom_id] === undefined && !checking[rom_id]`. -/
def shouldCheckRom (s : RomFsState) (romFile : RomFile) : Bool :=
  (s.fileChecks romFile.rom_id).isNone && !((s.checking romFile.rom_id).getD false)

/-- The `romsFilesToCheck` list built inside `checkMultipleRoms`. -/
def romsFilesToCheck (s : RomFsState) (romsFiles : List RomFile) : List RomFile :=
  romsFiles.filter (shouldCheckRom s)

/-- Run `checkIfRomExists` over a list of files, threading the hook state
(the `Promise.all` of line 118; functional state updates commute, so the
sequential fold is a faithful model of the interleaving). -/
def runChecks (env : FsEnv) (pf : Option PlatformFolder) :
    List RomFile → RomFsState → RomFsState
  | [], s => s
  | f :: rest, s => runChecks env pf rest (checkIfRomExists env (some f) pf s).state

/-- Outcome of `checkMultipleRoms`: final hook state and the files actually
handed to `checkIfRomExists`. -/
structure MultiCheckResult where
  state : RomFsState
  checkedFiles : List RomFile

/-- Source `checkMultipleRoms` (lines 94-125). -/
def checkMultipleRoms (env : FsEnv) (romsFiles : List RomFile)
    (platformFolder : Option PlatformFolder) (s : RomFsState) : MultiCheckResult :=
  let toCheck := romsFilesToCheck s romsFiles
  if toCheck.isEmpty then ⟨s, []⟩
  else
    match platformFolder with
    | none => ⟨s, []⟩
    | some pf =>
      if pf.folderUri = "" then ⟨s, []⟩
      else ⟨runChecks env (some pf) toCheck s, toCheck⟩

/-- Source `refreshRomCheck` (lines 127-142): short-circuit to `true` when the cache
already says `true`, otherwise delegate to `checkIfRomExists`. -/
def refreshRomCheck (env : FsEnv) (romFile : RomFile)
    (platformFolder : Option PlatformFolder) (s : RomFsState) : CheckResult :=
  if s.fileChecks romFile.rom_id = some true then ⟨true, s, 0⟩
  else checkIfRomExists env (some romFile) platformFolder s

/-- Source `resetRomsCheck` (lines 144-149): set both records to `false` for every
given file. -/
def resetRomsCheck : List RomFile → RomFsState → RomFsState
  | [], s => s
  | f :: rest, s =>
    resetRomsCheck rest
      { fileChecks := recordSet s.fileChecks f.rom_id false,
        checking := recordSet s.checking f.rom_id false }

/-- The fields of react-native's `Platform` module read by this app. -/
structure PlatformInfo where
  os : String
  isTV : Bool
  deriving DecidableEq, Repr

/-- Source `isSafAvailable` (useStorageAccessFramework.ts lines 15-23): true exactly on
Android that is not a TV. -/
def isSafAvailable (p : PlatformInfo) : Bool :=
  if p.os ≠ "android" then false
  else if p.isTV then false
  else true

/-- The two storage backends behind the abstraction. -/
inductive StorageBackend where
  | saf
  | fileSystem
  deriving DecidableEq, Repr

/-- Backend chosen by `checkIfRomExists` for the existence listing
(useRomFileSystem.ts lines 45-55): branches on `isSafAvailable()`. -/
def existenceCheckBackend (p : PlatformInfo) : StorageBackend :=
  if isSafAvailable p then StorageBackend.saf else StorageBackend.fileSystem

/-- Backend chosen by `readDirectoryContents` / `checkDirectoryPermissions`
(useStorageAccessFramework.ts lines 67, 88): branches on `isSafAvailable()`. -/
def directoryAccessBackend (p : PlatformInfo) : StorageBackend :=
  if isSafAvailable p then StorageBackend.saf else StorageBackend.fileSystem

/-- Backend chosen by the game screen's `handleDeleteFile` for listing and
deletion: branches on `RNPlatform.OS === "android"` alone, not on
`isSafAvailable()`. -/
def handleDeleteFileBackend (p : PlatformInfo) : StorageBackend :=
  if p.os = "android" then StorageBackend.saf else StorageBackend.fileSystem

/-- JS whitespace skipped by `parseInt`. -/
def isJsWhitespaceChar (c : Char) : Bool :=
  c == ' ' || c == '\t' || c == '\n' || c == '\r'

/-- Value of a run of decimal digits. -/
def digitsToNat (ds : List Char) : Nat :=
  ds.foldl (fun acc c => 10 * acc + (c.toNat - 48)) 0

/-- JS `parseInt(str, 10)`: skip leading whitespace, optional sign, then the
longest run of decimal digits; `none` models `NaN` (no digits). Trailing
garbage is ignored. -/
def parseIntJs (str : String) : Option Int :=
  let cs := str.toList.dropWhile isJsWhitespaceChar
  let signAndRest : Int × List Char :=
    match cs with
    | '-' :: rest => (-1, rest)
    | '+' :: rest => (1, rest)
    | _ => (1, cs)
  let digits := signAndRest.2.takeWhile Char.isDigit
  if digits.isEmpty then none
  else some (signAndRest.1 * (digitsToNat digits : Int))

/-- Source `loadConcurrentDownloadsSetting` (settings.tsx lines 266-285). The input is
the outcome of `AsyncStorage.getItem('concurrentDownloads')`: a thrown error,
`null`, or a stored string. A `NaN` parse fails the `numValue >= 1 && numValue
<= 5` test, so it falls to the default, exactly as in the source. -/
def loadConcurrentDownloadsSetting (stored : Except Unit (Option String)) : Int :=
  match stored with
  | Except.error _ => 2
  | Except.ok none => 2
  | Except.ok (some value) =>
    match parseIntJs value with
    | none => 2
    | some numValue => if 1 ≤ numValue ∧ numValue ≤ 5 then numValue else 2

/-- A JS `number` as consumed by `formatTime`: `NaN`, the two infinities, or a
finite value (every finite double is a rational). -/
inductive JSNum where
  | nan
  | posInf
  | negInf
  | finite (q : ℚ)
  deriving DecidableEq, Repr

/-- JS `isFinite`. -/
def JSNum.isFiniteB : JSNum → Bool
  | JSNum.finite _ => true
  | _ => false

/-- Truncation toward zero, as JS `%` uses for its implicit quotient. -/
def jsTrunc (q : ℚ) : Int :=
  if 0 ≤ q then ⌊q⌋ else ⌈q⌉

/-- JS remainder `a % m` for finite operands (sign follows the dividend). -/
def jsFmod (a m : ℚ) : ℚ :=
  a - m * (jsTrunc (a / m) : ℚ)

/-- Source `formatTime` (downloads screen, lines 47-61): "--" for zero, non-finite, or
more than 24 hours; otherwise hours/minutes, minutes/seconds, or seconds from
`Math.floor` arithmetic. -/
def formatTime (t : JSNum) : String :=
  match t with
  | JSNum.nan => "--"
  | JSNum.posInf => "--"
  | JSNum.negInf => "--"
  | JSNum.finite seconds =>
    if seconds = 0 ∨ 86400 < seconds then "--"
    else
      let hours : Int := ⌊seconds / 3600⌋
      let minutes : Int := ⌊jsFmod seconds 3600 / 60⌋
      let secs : Int := ⌊jsFmod seconds 60⌋
      if 0 < hours then toString hours ++ "h " ++ toString minutes ++ "m"
      else if 0 < minutes then toString minutes ++ "m " ++ toString secs ++ "s"
      else toString secs ++ "s"

/-- Modelled from the spec: the download status enumeration of the download
queue manager (`DownloadContext`), which is not among the provided sources
(only its callers are). Spec section 4.3. -/
inductive DownloadStatus where
  | pending
  | downloading
  | extracting
  | moving
  | paused
  | completed
  | failed
  | cancelled
  deriving DecidableEq, Repr

/-- Modelled from the spec: ACTIVE statuses are DOWNLOADING, EXTRACTING and
MOVING (spec sections 4.1 and 8). -/
def DownloadStatus.isActive : DownloadStatus → Bool
  | DownloadStatus.downloading => true
  | DownloadStatus.extracting => true
  | DownloadStatus.moving => true
  | _ => false

/-- PENDING test, kept as a `Bool` for counting. -/
def DownloadStatus.isPending : DownloadStatus → Bool
  | DownloadStatus.pending => true
  | _ => false

/-- Modelled from the spec: a download queue item. Only the synthetic id, the
requested file's id, and the status matter for the concurrency-cap claim;
progress and byte fields are omitted. -/
structure QueueItem where
  id : Nat
  fileId : Nat
  status : DownloadStatus
  deriving DecidableEq, Repr

/-- Modelled from the spec: the queue manager's state — the ordered item list
(arrival order), the configured concurrency cap, and the next fresh id. -/
structure DownloadQueue where
  items : List QueueItem
  maxConcurrent : Nat
  nextId : Nat
  deriving Repr

/-- Number of items in an ACTIVE state. -/
def activeCount (items : List QueueItem) : Nat :=
  items.countP (fun it => it.status.isActive)

/-- Number of PENDING items. -/
def pendingCount (items : List QueueItem) : Nat :=
  items.countP (fun it => it.status.isPending)

/-- Modelled from the spec: promote up to `n` oldest PENDING items (in arrival
order) to DOWNLOADING. This is the closed form of the scheduler's while loop:
each promotion fills one free slot. -/
def promotePendings : Nat → List QueueItem → List QueueItem
  | _, [] => []
  | 0, l => l
  | n + 1, it :: rest =>
    if it.status = DownloadStatus.pending then
      { it with status := DownloadStatus.downloading } :: promotePendings n rest
    else
      it :: promotePendings (n + 1) rest

/-- Modelled from the spec: the scheduler tick (spec section 4.1) — while the
active count is strictly below `maxConcurrent` and a PENDING item exists,
promote the oldest PENDING item to DOWNLOADING. -/
def schedulerTick (q : DownloadQueue) : DownloadQueue :=
  { q with items := promotePendings (q.maxConcurrent - activeCount q.items) q.items }

/-- Set the status of the item with the given id. -/
def setStatus (items : List QueueItem) (id : Nat) (st : DownloadStatus) : List QueueItem :=
  items.map (fun it => if it.id = id then { it with status := st } else it)

/-- Status of the item with the given id, if present. -/
def statusOf (q : DownloadQueue) (id : Nat) : Option DownloadStatus :=
  (q.items.find? (fun it => it.id == id)).map (fun it => it.status)

/-- Modelled from the spec: `enqueue` — reject (AlreadyQueuedError, queue
unchanged) when an item for the same file id is already PENDING or ACTIVE;
otherwise append a fresh PENDING item and tick. -/
def addRomToQueue (q : DownloadQueue) (fileId : Nat) : DownloadQueue :=
  if q.items.any (fun it => it.fileId == fileId && (it.status.isPending || it.status.isActive)) then q
  else
    schedulerTick
      { q with
        items := q.items ++ [{ id := q.nextId, fileId := fileId, status := DownloadStatus.pending }],
        nextId := q.nextId + 1 }

/-- Modelled from the spec: `pause`, valid only from DOWNLOADING. -/
def pauseDownload (q : DownloadQueue) (id : Nat) : DownloadQueue :=
  if statusOf q id = some DownloadStatus.downloading then
    schedulerTick { q with items := setStatus q.items id DownloadStatus.paused }
  else q

/-- Modelled from the spec: `resume`, valid only from PAUSED; re-enters at
PENDING. -/
def resumeDownload (q : DownloadQueue) (id : Nat) : DownloadQueue :=
  if statusOf q id = some DownloadStatus.paused then
    schedulerTick { q with items := setStatus q.items id DownloadStatus.pending }
  else q

/-- Modelled from the spec: `cancel`, valid from PENDING, DOWNLOADING, PAUSED,
EXTRACTING, MOVING. -/
def cancelDownload (q : DownloadQueue) (id : Nat) : DownloadQueue :=
  match statusOf q id with
  | some st =>
    if st.isPending || st.isActive || st = DownloadStatus.paused then
      schedulerTick { q with items := setStatus q.items id DownloadStatus.cancelled }
    else q
  | none => q

/-- Modelled from the spec: `retryDownload`, valid from FAILED or CANCELLED;
re-enters at PENDING. -/
def retryDownload (q : DownloadQueue) (id : Nat) : DownloadQueue :=
  match statusOf q id with
  | some st =>
    if st = DownloadStatus.failed ∨ st = DownloadStatus.cancelled then
      schedulerTick { q with items := setStatus q.items id DownloadStatus.pending }
    else q
  | none => q

/-- Modelled from the spec: `removeFromQueue` deletes the item regardless of
state (an active item is aborted first; abortion does not add active items). -/
def removeFromQueue (q : DownloadQueue) (id : Nat) : DownloadQueue :=
  schedulerTick { q with items := q.items.filter (fun it => it.id ≠ id) }

/-- Modelled from the spec: `clearCompleted` bulk-removes COMPLETED items. -/
def clearCompleted (q : DownloadQueue) : DownloadQueue :=
  schedulerTick { q with items := q.items.filter (fun it => it.status ≠ DownloadStatus.completed) }

/-- Modelled from the spec: `clearFailed` bulk-removes FAILED and CANCELLED
items. -/
def clearFailed (q : DownloadQueue) : DownloadQueue :=
  schedulerTick
    { q with
      items := q.items.filter
        (fun it => it.status ≠ DownloadStatus.failed ∧ it.status ≠ DownloadStatus.cancelled) }

/-- Modelled from the spec: the transfer worker's own transitions (spec section
4.3): DOWNLOADING→EXTRACTING/MOVING/FAILED, EXTRACTING→MOVING/FAILED,
MOVING→COMPLETED/FAILED. -/
def workerTransition (src tgt : DownloadStatus) : Bool :=
  match src, tgt with
  | DownloadStatus.downloading, DownloadStatus.extracting => true
  | DownloadStatus.downloading, DownloadStatus.moving => true
  | DownloadStatus.downloading, DownloadStatus.failed => true
  | DownloadStatus.extracting, DownloadStatus.moving => true
  | DownloadStatus.extracting, DownloadStatus.failed => true
  | DownloadStatus.moving, DownloadStatus.completed => true
  | DownloadStatus.moving, DownloadStatus.failed => true
  | _, _ => false

/-- Modelled from the spec: a worker advances its item along a valid worker
transition; invalid transitions are reported no-ops. -/
def workerAdvance (q : DownloadQueue) (id : Nat) (tgt : DownloadStatus) : DownloadQueue :=
  match statusOf q id with
  | some st =>
    if workerTransition st tgt then
      schedulerTick { q with items := setStatus q.items id tgt }
    else q
  | none => q

/-- Modelled from the spec: one step of the queue manager — any user command or
worker transition. -/
inductive QueueStep : DownloadQueue → DownloadQueue → Prop
  | enqueue (q : DownloadQueue) (fileId : Nat) : QueueStep q (addRomToQueue q fileId)
  | pause (q : DownloadQueue) (id : Nat) : QueueStep q (pauseDownload q id)
  | resume (q : DownloadQueue) (id : Nat) : QueueStep q (resumeDownload q id)
  | cancel (q : DownloadQueue) (id : Nat) : QueueStep q (cancelDownload q id)
  | retry (q : DownloadQueue) (id : Nat) : QueueStep q (retryDownload q id)
  | remove (q : DownloadQueue) (id : Nat) : QueueStep q (removeFromQueue q id)
  | clearDone (q : DownloadQueue) : QueueStep q (clearCompleted q)
  | clearFail (q : DownloadQueue) : QueueStep q (clearFailed q)
  | advance (q : DownloadQueue) (id : Nat) (tgt : DownloadStatus) :
      QueueStep q (workerAdvance q id tgt)

/-- Modelled from the spec: reachable queue states — start empty with a
configured cap in 1..5, close under steps. -/
inductive QueueReachable : DownloadQueue → Prop
  | init (cap : Nat) (h1 : 1 ≤ cap) (h5 : cap ≤ 5) :
      QueueReachable { items := [], maxConcurrent := cap, nextId := 0 }
  | step {q q2 : DownloadQueue} (hq : QueueReachable q) (hs : QueueStep q q2) :
      QueueReachable q2

/-- The internal invariant: the concurrency cap is respected, item ids are
distinct, and all ids are below the fresh-id counter. -/
def QueueInv (q : DownloadQueue) : Prop :=
  activeCount q.items ≤ q.maxConcurrent ∧
  (q.items.map (fun it => it.id)).Nodup ∧
  (∀ it ∈ q.items, it.id < q.nextId)

/-- The entry test as the spec words it (for comparison with the source's
test): the ENTRY name, considered ignoring its extension, contains the file's
base name. The source instead tests the entry's full name. -/
def specEntryMatch (entry base : String) : Bool :=
  jsIncludes (stripExtension entry) base

/-- Concrete fixture: SAF available, SAF listing contains a file whose name
starts with "game". -/
def sampleEnv : FsEnv :=
  { safAvailable := true,
    safList := fun _ => ListingResult.ok ["game.zip"],
    dirList := fun _ => ListingResult.ok [] }

/-- Concrete fixture: SAF available, SAF listing is the single entry "x.a". -/
def sampleEnvXa : FsEnv :=
  { safAvailable := true,
    safList := fun _ => ListingResult.ok ["x.a"],
    dirList := fun _ => ListingResult.ok [] }

/-- Concrete fixture: SAF available, every listing throws. -/
def sampleEnvErr : FsEnv :=
  { safAvailable := true,
    safList := fun _ => ListingResult.err,
    dirList := fun _ => ListingResult.err }

/-- Concrete fixture folder. -/
def sampleFolder : PlatformFolder :=
  { platformSlug := "snes", platformName := "SNES",
    folderUri := "content://tree/primary/roms/snes", folderName := "snes" }

/-- Concrete fixture: one file variant of ROM 7. -/
def sampleFile1 : RomFile :=
  { id := 1, rom_id := 7, file_name := "game.zip", file_extension := "zip",
    file_path := "roms/snes", file_size_bytes := 1000 }

/-- Concrete fixture: a different file variant of the same ROM 7. -/
def sampleFile2 : RomFile :=
  { id := 2, rom_id := 7, file_name := "other.rom", file_extension := "rom",
    file_path := "roms/snes", file_size_bytes := 2000 }

/-- Concrete fixture: a file of a different ROM 9, with file name "a.b". -/
def sampleFileA : RomFile :=
  { id := 3, rom_id := 9, file_name := "a.b", file_extension := "b",
    file_path := "roms/snes", file_size_bytes := 3000 }

/-- Concrete fixture state whose in-flight flag for ROM 7 is raised. -/
def sampleCheckingState : RomFsState :=
  { fileChecks := fun _ => none,
    checking := recordSet (fun _ => none) 7 true }

/-- Concrete fixture state whose cache already says ROM 7 is present. -/
def sampleCachedState : RomFsState :=
  { fileChecks := recordSet (fun _ => none) 7 true,
    checking := fun _ => none }

/-! ## Theorems -/

theorem check_preserves_checking (env : FsEnv) (romFile : Option RomFile)
    (pf : Option PlatformFolder) (s : RomFsState) :
    (checkIfRomExists env romFile pf s).state.checking = s.checking := by
  unfold checkIfRomExists
  cases romFile with
  | none => rfl
  | some f =>
    cases pf with
    | none => rfl
    | some p =>
      by_cases h : p.folderUri = ""
      · simp only [h, if_true, ite_true]
      · simp only [h, ite_false]
        cases listPlatformFolder env p.folderUri with
        | err => rfl
        | ok names =>
          by_cases h2 :
              names.any (fun file => jsIncludes file (stripExtension f.file_name)) = true
          · simp only [h2, ite_true]
          · simp only [eq_false_of_ne_true h2, Bool.false_eq_true, ite_false]

theorem check_fileChecks_other (env : FsEnv) (f : RomFile)
    (pf : Option PlatformFolder) (s : RomFsState) (k : Nat) (hk : k ≠ f.rom_id) :
    (checkIfRomExists env (some f) pf s).state.fileChecks k = s.fileChecks k := by
  unfold checkIfRomExists
  cases pf with
  | none => rfl
  | some p =>
    by_cases h : p.folderUri = ""
    · simp only [h, if_true, ite_true]
    · simp only [h, ite_false]
      cases listPlatformFolder env p.folderUri with
      | err => simp only [recordSet, hk, ite_false, if_neg hk]
      | ok names =>
        by_cases h2 :
            names.any (fun file => jsIncludes file (stripExtension f.file_name)) = true
        · simp only [h2, ite_true, recordSet, if_neg hk]
        · simp only [eq_false_of_ne_true h2, Bool.false_eq_true, ite_false, recordSet,
            if_neg hk]

/-- Claim C2: `refreshRomCheck` short-circuits to `true` — with no directory
listing and no state change, so the file keeps being reported present — when
the cache entry for the file already says `true`; when the entry is absent or
`false` it performs the full `checkIfRomExists` and returns its result. -/
theorem C2_refresh_short_circuit (env : FsEnv) (romFile : RomFile)
    (pf : Option PlatformFolder) (s : RomFsState) :
    (s.fileChecks romFile.rom_id = some true →
      refreshRomCheck env romFile pf s = ⟨true, s, 0⟩ ∧
      isRomDownloaded (refreshRomCheck env romFile pf s).state romFile = true) ∧
    (s.fileChecks romFile.rom_id ≠ some true →
      refreshRomCheck env romFile pf s = checkIfRomExists env (some romFile) pf s) := by
  constructor
  · intro h
    have heq : refreshRomCheck env romFile pf s = ⟨true, s, 0⟩ := by
      unfold refreshRomCheck
      simp only [h, ite_true]
    refine ⟨heq, ?_⟩
    rw [heq]
    simp only [isRomDownloaded, h, Option.getD_some]
  · intro h
    unfold refreshRomCheck
    simp only [h, ite_false]

/-- Witness for C2 at a concrete cached-true state and a concrete uncached
state. -/
theorem C2_refresh_short_circuit_witness :
    refreshRomCheck sampleEnvErr sampleFile1 (some sampleFolder) sampleCachedState =
      ⟨true, sampleCachedState, 0⟩ ∧
    refreshRomCheck sampleEnv sampleFile1 (some sampleFolder) initialRomFsState =
      checkIfRomExists sampleEnv (some sampleFile1) (some sampleFolder) initialRomFsState :=
  ⟨((C2_refresh_short_circuit sampleEnvErr sampleFile1 (some sampleFolder)
      sampleCachedState).1 (by decide)).1,
    (C2_refresh_short_circuit sampleEnv sampleFile1 (some sampleFolder)
      initialRomFsState).2 (by decide)⟩

/-- Counterexample to C3 as stated: the cache is keyed by `rom_id`, which two
file variants of the same ROM share. Checking variant `sampleFile1` (id 1)
flips the answer `isRomDownloaded` reports for the distinct variant
`sampleFile2` (id 2) from `false` to `true`. -/
theorem C3_counterexample :
    sampleFile1 ≠ sampleFile2 ∧
    isRomDownloaded initialRomFsState sampleFile2 = false ∧
    isRomDownloaded
      (checkIfRomExists sampleEnv (some sampleFile1) (some sampleFolder)
        initialRomFsState).state sampleFile2 = true := by
  refine ⟨by decide, rfl, ?_⟩
  rfl

/-- Claim C3 amended: the existence cache is keyed by `rom_id` (not the file's
own id): a check for file `f` leaves the cached answer unchanged for every file
`g` of a different ROM (`g.rom_id ≠ f.rom_id`); variants sharing `rom_id` share
one entry. -/
theorem C3_cache_keyed_by_rom_id (env : FsEnv) (f : RomFile)
    (pf : Option PlatformFolder) (s : RomFsState) (g : RomFile)
    (h : g.rom_id ≠ f.rom_id) :
    isRomDownloaded (checkIfRomExists env (some f) pf s).state g =
      isRomDownloaded s g := by
  unfold isRomDownloaded
  rw [check_fileChecks_other env f pf s g.rom_id h]

/-- Witness for the amended C3 at concrete distinct-ROM files. -/
theorem C3_cache_keyed_by_rom_id_witness :
    isRomDownloaded
      (checkIfRomExists sampleEnv (some sampleFile1) (some sampleFolder)
        initialRomFsState).state sampleFileA =
      isRomDownloaded initialRomFsState sampleFileA :=
  C3_cache_keyed_by_rom_id sampleEnv sampleFile1 (some sampleFolder)
    initialRomFsState sampleFileA (by decide)

/-- Counterexample to C4 as stated: `checkIfRomExists` does not clear the
in-flight flag. From a state whose flag for ROM 7 is raised, a completed check
leaves the flag raised and `isCheckingRom` still reports `true`. -/
theorem C4_counterexample :
    (checkIfRomExists sampleEnv (some sampleFile1) (some sampleFolder)
      sampleCheckingState).state.checking 7 = some true ∧
    isCheckingRom
      (checkIfRomExists sampleEnv (some sampleFile1) (some sampleFolder)
        sampleCheckingState).state sampleFile1 = true := by
  refine ⟨?_, ?_⟩ <;> rfl

/-- Claim C4 amended: `checkIfRomExists` never touches the in-flight flag map:
the `checking` record after any check is exactly the record before it, so
`isCheckingRom` reports after the check exactly what it reported before. -/
theorem C4_checking_flag_untouched (env : FsEnv) (romFile : Option RomFile)
    (pf : Option PlatformFolder) (s : RomFsState) (f : RomFile) :
    (checkIfRomExists env romFile pf s).state.checking = s.checking ∧
    isCheckingRom (checkIfRomExists env romFile pf s).state f = isCheckingRom s f := by
  have h := check_preserves_checking env romFile pf s
  exact ⟨h, by unfold isCheckingRom; rw [h]⟩

/-- Counterexample to C5 as stated: with the single directory entry "x.a" and a
file of base name "a" (file_name "a.b"), no entry-name-ignoring-its-extension
contains "a" (the stripped entry is "x"), yet `checkIfRomExists` returns
`true`, because the source tests the entry's full name "x.a". -/
theorem C5_counterexample :
    (checkIfRomExists sampleEnvXa (some sampleFileA) (some sampleFolder)
      initialRomFsState).result = true ∧
    (["x.a"].any fun e => specEntryMatch e (stripExtension sampleFileA.file_name)) =
      false := by
  refine ⟨rfl, by decide⟩

/-- Claim C5 amended: when the inputs are present and the listing succeeds,
`checkIfRomExists` returns `true` exactly when some entry's FULL name contains
the file's base name (the file's `file_name` with its final extension
removed). -/
theorem C5_entry_fullname_containment (env : FsEnv) (f : RomFile)
    (p : PlatformFolder) (s : RomFsState) (names : List String)
    (hu : p.folderUri ≠ "")
    (hl : listPlatformFolder env p.folderUri = ListingResult.ok names) :
    ((checkIfRomExists env (some f) (some p) s).result = true ↔
      ∃ e ∈ names, jsIncludes e (stripExtension f.file_name) = true) := by
  unfold checkIfRomExists
  dsimp only
  rw [if_neg hu, hl]
  dsimp only
  rw [← List.any_eq_true]
  by_cases h2 :
      names.any (fun file => jsIncludes file (stripExtension f.file_name)) = true
  · rw [if_pos h2]
    simp only [h2]
  · rw [if_neg h2]
    simp only [Bool.not_eq_true] at h2
    simp only [h2, Bool.false_eq_true, iff_self]

/-- Witness for the amended C5: with the listing ["x.a"], the full entry name
"x.a" contains the base name "a", so the check returns true. -/
theorem C5_entry_fullname_containment_witness :
    (checkIfRomExists sampleEnvXa (some sampleFileA) (some sampleFolder)
      initialRomFsState).result = true :=
  (C5_entry_fullname_containment sampleEnvXa sampleFileA sampleFolder
    initialRomFsState ["x.a"] (by decide) rfl).mpr ⟨"x.a", by decide, by decide⟩

/-- Claim C9: `checkIfRomExists` is a total boolean function on the embedding;
it returns `false` without touching the state when the ROM file reference or
the platform folder (or its URI) is missing, and on a listing error it returns
`false` and additionally records `false` in the existence cache for that file
(the in-flight map stays untouched). -/
theorem C9_check_total_error_handling (env : FsEnv) (romFile : Option RomFile)
    (pf : Option PlatformFolder) (s : RomFsState) :
    (romFile = none → checkIfRomExists env romFile pf s = ⟨false, s, 0⟩) ∧
    (pf = none → checkIfRomExists env romFile pf s = ⟨false, s, 0⟩) ∧
    (∀ f p, romFile = some f → pf = some p → p.folderUri = "" →
      checkIfRomExists env romFile pf s = ⟨false, s, 0⟩) ∧
    (∀ f p, romFile = some f → pf = some p → p.folderUri ≠ "" →
      listPlatformFolder env p.folderUri = ListingResult.err →
      (checkIfRomExists env romFile pf s).result = false ∧
      (checkIfRomExists env romFile pf s).state.fileChecks f.rom_id = some false ∧
      (checkIfRomExists env romFile pf s).state.checking = s.checking) := by
  refine ⟨?_, ?_, ?_, ?_⟩
  · rintro rfl
    rfl
  · rintro rfl
    cases romFile <;> rfl
  · rintro f p rfl rfl h
    unfold checkIfRomExists
    dsimp only
    rw [if_pos h]
  · rintro f p rfl rfl h hl
    unfold checkIfRomExists
    dsimp only
    rw [if_neg h, hl]
    exact ⟨rfl, by simp [recordSet], rfl⟩

/-- Witness for C9 at a concrete always-throwing environment. -/
theorem C9_check_total_error_handling_witness :
    (checkIfRomExists sampleEnvErr (some sampleFile1) (some sampleFolder)
      initialRomFsState).result = false ∧
    (checkIfRomExists sampleEnvErr (some sampleFile1) (some sampleFolder)
      initialRomFsState).state.fileChecks 7 = some false ∧
    (checkIfRomExists sampleEnvErr (some sampleFile1) (some sampleFolder)
      initialRomFsState).state.checking = initialRomFsState.checking :=
  (C9_check_total_error_handling sampleEnvErr (some sampleFile1)
    (some sampleFolder) initialRomFsState).2.2.2 sampleFile1 sampleFolder rfl rfl
    (by decide) rfl

/-- Claim C6 (code bug): on Android TV (`Platform.OS === "android"`,
`Platform.isTV === true`) the capability check `isSafAvailable()` is false —
so the claim and spec require the plain-path backend everywhere — and the
existence listing indeed uses the plain-path backend, but the game screen's
delete-file handler branches on `Platform.OS === "android"` alone and selects
the SAF backend. -/
theorem C6_delete_backend_on_android_tv :
    isSafAvailable { os := "android", isTV := true } = false ∧
    existenceCheckBackend { os := "android", isTV := true } =
      StorageBackend.fileSystem ∧
    directoryAccessBackend { os := "android", isTV := true } =
      StorageBackend.fileSystem ∧
    handleDeleteFileBackend { os := "android", isTV := true } =
      StorageBackend.saf := by
  refine ⟨rfl, rfl, rfl, rfl⟩

/-- Claim C7: the loaded `concurrentDownloads` setting is always an integer in
[1,5]; it equals the stored string's `parseInt` value when that value lies in
[1,5], and equals the default 2 when the value is absent, does not parse
(`NaN`), parses out of range, or loading throws. -/
theorem C7_concurrent_setting_range (stored : Except Unit (Option String)) :
    (1 ≤ loadConcurrentDownloadsSetting stored ∧
      loadConcurrentDownloadsSetting stored ≤ 5) ∧
    (∀ v n, stored = Except.ok (some v) → parseIntJs v = some n →
      1 ≤ n → n ≤ 5 → loadConcurrentDownloadsSetting stored = n) ∧
    (∀ v n, stored = Except.ok (some v) → parseIntJs v = some n →
      (n < 1 ∨ 5 < n) → loadConcurrentDownloadsSetting stored = 2) ∧
    (∀ v, stored = Except.ok (some v) → parseIntJs v = none →
      loadConcurrentDownloadsSetting stored = 2) ∧
    (stored = Except.ok none → loadConcurrentDownloadsSetting stored = 2) ∧
    (∀ e, stored = Except.error e → loadConcurrentDownloadsSetting stored = 2) := by
  refine ⟨?_, ?_, ?_, ?_, ?_, ?_⟩
  · unfold loadConcurrentDownloadsSetting
    rcases stored with e | ov
    · exact ⟨by norm_num, by norm_num⟩
    · rcases ov with _ | v
      · exact ⟨by norm_num, by norm_num⟩
      · dsimp only
        rcases hps : parseIntJs v with _ | n
        · exact ⟨by norm_num, by norm_num⟩
        · dsimp only
          by_cases h : 1 ≤ n ∧ n ≤ 5
          · rw [if_pos h]
            exact h
          · rw [if_neg h]
            exact ⟨by norm_num, by norm_num⟩
  · rintro v n rfl hp h1 h5
    unfold loadConcurrentDownloadsSetting
    dsimp only
    rw [hp]
    exact if_pos ⟨h1, h5⟩
  · rintro v n rfl hp hout
    unfold loadConcurrentDownloadsSetting
    dsimp only
    rw [hp]
    refine if_neg ?_
    rintro ⟨h1, h5⟩
    omega
  · rintro v rfl hp
    unfold loadConcurrentDownloadsSetting
    dsimp only
    rw [hp]
  · rintro rfl
    rfl
  · rintro e rfl
    rfl

/-- Witness for C7 at the stored strings "3" (in range) and "9" (out of
range). -/
theorem C7_concurrent_setting_range_witness :
    loadConcurrentDownloadsSetting (Except.ok (some "3")) = 3 ∧
    loadConcurrentDownloadsSetting (Except.ok (some "9")) = 2 :=
  ⟨(C7_concurrent_setting_range (Except.ok (some "3"))).2.1 "3" 3 rfl (by decide)
      (by norm_num) (by norm_num),
    (C7_concurrent_setting_range (Except.ok (some "9"))).2.2.1 "9" 9 rfl (by decide)
      (by norm_num)⟩

theorem resetRomsCheck_fileChecks (files : List RomFile) (s : RomFsState) (k : Nat) :
    (resetRomsCheck files s).fileChecks k =
      if k ∈ files.map (fun f => f.rom_id) then some false else s.fileChecks k := by
  induction files generalizing s with
  | nil => simp [resetRomsCheck]
  | cons f rest ih =>
    unfold resetRomsCheck
    rw [ih]
    by_cases hk : k ∈ rest.map (fun f => f.rom_id)
    · simp [hk]
    · by_cases hk2 : k = f.rom_id
      · simp [hk, hk2, recordSet]
      · simp [hk, hk2, recordSet]

theorem runChecks_fileChecks_other (env : FsEnv) (pf : Option PlatformFolder)
    (l : List RomFile) (s : RomFsState) (k : Nat) (h : ∀ g ∈ l, g.rom_id ≠ k) :
    (runChecks env pf l s).fileChecks k = s.fileChecks k := by
  induction l generalizing s with
  | nil => rfl
  | cons g rest ih =>
    unfold runChecks
    rw [ih _ (fun x hx => h x (List.mem_cons_of_mem _ hx))]
    exact check_fileChecks_other env g pf s k (h g (List.mem_cons_self g rest)).symm

theorem mem_toCheck_fileChecks_none {s : RomFsState} {roms : List RomFile}
    {g : RomFile} (h : g ∈ romsFilesToCheck s roms) : s.fileChecks g.rom_id = none := by
  have hp := (List.mem_filter.mp h).2
  unfold shouldCheckRom at hp
  have h1 := ((Bool.and_eq_true _ _).mp hp).1
  exact Option.isNone_iff_eq_none.mp h1

/-- Claim C10: `resetRomsCheck` sets the cache entry of every given file to a
defined `false`; a subsequent `checkMultipleRoms` (whose filter keeps only
files with an undefined cache entry and no raised in-flight flag) performs no
existence check for a reset file, and `isRomDownloaded` keeps reporting `false`
for it afterwards. -/
theorem C10_reset_then_no_recheck (files : List RomFile) (s : RomFsState)
    (f : RomFile) (hf : f ∈ files) :
    (resetRomsCheck files s).fileChecks f.rom_id = some false ∧
    isRomDownloaded (resetRomsCheck files s) f = false ∧
    (∀ env roms pf2,
      f ∉ (checkMultipleRoms env roms pf2 (resetRomsCheck files s)).checkedFiles ∧
      isRomDownloaded (checkMultipleRoms env roms pf2 (resetRomsCheck files s)).state f
        = false) := by
  have hmem : f.rom_id ∈ files.map (fun g => g.rom_id) :=
    List.mem_map_of_mem _ hf
  have hset : (resetRomsCheck files s).fileChecks f.rom_id = some false := by
    rw [resetRomsCheck_fileChecks]
    exact if_pos hmem
  refine ⟨hset, ?_, ?_⟩
  · unfold isRomDownloaded
    rw [hset]
    rfl
  · intro env roms pf2
    have hnotin : f ∉ romsFilesToCheck (resetRomsCheck files s) roms := by
      intro hin
      have hnone := mem_toCheck_fileChecks_none hin
      rw [hset] at hnone
      exact Option.noConfusion hnone
    constructor
    · unfold checkMultipleRoms
      dsimp only
      by_cases he : (romsFilesToCheck (resetRomsCheck files s) roms).isEmpty
      · rw [if_pos he]
        exact List.not_mem_nil f
      · rw [if_neg he]
        cases pf2 with
        | none => exact List.not_mem_nil f
        | some p =>
          dsimp only
          by_cases hu : p.folderUri = ""
          · rw [if_pos hu]
            exact List.not_mem_nil f
          · rw [if_neg hu]
            exact hnotin
    · unfold checkMultipleRoms
      dsimp only
      by_cases he : (romsFilesToCheck (resetRomsCheck files s) roms).isEmpty
      · rw [if_pos he]
        unfold isRomDownloaded
        rw [hset]
        rfl
      · rw [if_neg he]
        cases pf2 with
        | none =>
          unfold isRomDownloaded
          rw [hset]
          rfl
        | some p =>
          dsimp only
          by_cases hu : p.folderUri = ""
          · rw [if_pos hu]
            unfold isRomDownloaded
            rw [hset]
            rfl
          · rw [if_neg hu]
            unfold isRomDownloaded
            dsimp only
            rw [runChecks_fileChecks_other]
            · rw [hset]
              rfl
            · intro g hg hk
              have hgnone := mem_toCheck_fileChecks_none hg
              rw [hk, hset] at hgnone
              exact Option.noConfusion hgnone

/-- Witness for C10 at a concrete singleton reset. -/
theorem C10_reset_then_no_recheck_witness :
    (resetRomsCheck [sampleFile1] initialRomFsState).fileChecks 7 = some false ∧
    isRomDownloaded (resetRomsCheck [sampleFile1] initialRomFsState) sampleFile1 =
      false :=
  ⟨(C10_reset_then_no_recheck [sampleFile1] initialRomFsState sampleFile1
      (by decide)).1,
    (C10_reset_then_no_recheck [sampleFile1] initialRomFsState sampleFile1
      (by decide)).2.1⟩

theorem append_last_char_ne (a : String) (c : Char) (hc : c ≠ '-') :
    a ++ String.mk [c] ≠ "--" := by
  intro h
  have hd2 : a.data ++ [c] = ['-', '-'] := by
    have hd : (a ++ String.mk [c]).data = "--".data := by rw [h]
    exact hd
  have hlast : (a.data ++ [c]).getLast? = some c := List.getLast?_concat _
  rw [hd2] at hlast
  simp only [List.getLast?_cons_cons, List.getLast?_singleton, Option.some_inj] at hlast
  exact hc hlast.symm

/-- Claim C8: `formatTime` returns the indeterminate marker "--" exactly when
the remaining-time value is zero, non-finite, or exceeds 24 hours (86400 s);
for every other positive finite value it returns the hours/minutes,
minutes/seconds, or seconds string built from the `Math.floor` divisions of the
value. -/
theorem C8_formatTime_indeterminate (t : JSNum) :
    (formatTime t = "--" ↔
      (t = JSNum.finite 0 ∨ t.isFiniteB = false ∨
        ∃ q, t = JSNum.finite q ∧ 86400 < q)) ∧
    (∀ q : ℚ, t = JSNum.finite q → 0 < q → q ≤ 86400 →
      formatTime t =
        (if 0 < ⌊q / 3600⌋ then
          toString ⌊q / 3600⌋ ++ "h " ++ toString ⌊jsFmod q 3600 / 60⌋ ++ "m"
        else if 0 < ⌊jsFmod q 3600 / 60⌋ then
          toString ⌊jsFmod q 3600 / 60⌋ ++ "m " ++ toString ⌊jsFmod q 60⌋ ++ "s"
        else toString ⌊jsFmod q 60⌋ ++ "s")) := by
  constructor
  · cases t with
    | nan => simp [formatTime, JSNum.isFiniteB]
    | posInf => simp [formatTime, JSNum.isFiniteB]
    | negInf => simp [formatTime, JSNum.isFiniteB]
    | finite q =>
      unfold formatTime
      dsimp only
      by_cases h0 : q = 0 ∨ 86400 < q
      · rw [if_pos h0]
        simp only [true_iff]
        rcases h0 with h | h
        · exact Or.inl (by rw [h])
        · exact Or.inr (Or.inr ⟨q, rfl, h⟩)
      · rw [if_neg h0]
        constructor
        · intro h
          exfalso
          revert h
          split
          · have : ("m" : String) = String.mk ['m'] := rfl
            rw [this]
            exact append_last_char_ne _ _ (by decide)
          · split
            · have : ("s" : String) = String.mk ['s'] := rfl
              rw [this]
              exact append_last_char_ne _ _ (by decide)
            · have : ("s" : String) = String.mk ['s'] := rfl
              rw [this]
              exact append_last_char_ne _ _ (by decide)
        · intro h
          exfalso
          rcases h with h | h | ⟨q2, hq2, hgt⟩
          · exact h0 (Or.inl (by injection h))
          · exact absurd h (by simp [JSNum.isFiniteB])
          · injection hq2 with hq2
            exact h0 (Or.inr (by rw [hq2]; exact hgt))
  · rintro q rfl hq0 hq86
    unfold formatTime
    dsimp only
    have hno : ¬(q = 0 ∨ 86400 < q) := by
      rintro (h | h)
      · exact hq0.ne' h
      · exact absurd hq86 (not_le.mpr h)
    rw [if_neg hno]

/-- Witness for C8: 100 seconds renders as "1m 40s". -/
theorem C8_formatTime_indeterminate_witness :
    formatTime (JSNum.finite 100) = "1m 40s" := by
  have h := (C8_formatTime_indeterminate (JSNum.finite 100)).2 100 rfl
    (by norm_num) (by norm_num)
  rw [h]
  norm_num [jsFmod, jsTrunc]
  rfl

theorem promotePendings_zero (l : List QueueItem) : promotePendings 0 l = l := by
  cases l <;> rfl

theorem activeCount_promotePendings (l : List QueueItem) :
    ∀ n, activeCount (promotePendings n l) =
      activeCount l + min n (pendingCount l) := by
  unfold activeCount pendingCount
  induction l with
  | nil => intro n; simp [promotePendings]
  | cons a rest ih =>
    intro n
    cases n with
    | zero => simp [promotePendings_zero]
    | succ n =>
      by_cases ha : a.status = DownloadStatus.pending
      · rw [show promotePendings (n + 1) (a :: rest) =
            { a with status := DownloadStatus.downloading } :: promotePendings n rest from
            by simp [promotePendings, ha]]
        have hact : ({ a with status := DownloadStatus.downloading } : QueueItem).status.isActive =
            true := rfl
        have hnact : a.status.isActive = false := by rw [ha]; rfl
        have hpend : a.status.isPending = true := by rw [ha]; rfl
        simp [List.countP_cons, hact, hnact, hpend, ih n]
        have hmin := Nat.succ_min_succ n (List.countP (fun it => it.status.isPending) rest)
        omega
      · rw [show promotePendings (n + 1) (a :: rest) =
            a :: promotePendings (n + 1) rest from by simp [promotePendings, ha]]
        have hpend : a.status.isPending = false := by
          cases h2 : a.status <;> first | rfl | exact absurd h2 ha
        simp [List.countP_cons, hpend, ih (n + 1)]
        omega

theorem ids_promotePendings (l : List QueueItem) :
    ∀ n, (promotePendings n l).map (fun it => it.id) = l.map (fun it => it.id) := by
  induction l with
  | nil => intro n; simp [promotePendings]
  | cons a rest ih =>
    intro n
    cases n with
    | zero => rw [promotePendings_zero]
    | succ n =>
      by_cases ha : a.status = DownloadStatus.pending
      · rw [show promotePendings (n + 1) (a :: rest) =
            { a with status := DownloadStatus.downloading } :: promotePendings n rest from
            by simp [promotePendings, ha]]
        simp only [List.map_cons, ih]
      · rw [show promotePendings (n + 1) (a :: rest) =
            a :: promotePendings (n + 1) rest from by simp [promotePendings, ha]]
        simp only [List.map_cons, ih]

theorem ids_setStatus (l : List QueueItem) (id : Nat) (st : DownloadStatus) :
    (setStatus l id st).map (fun it => it.id) = l.map (fun it => it.id) := by
  unfold setStatus
  rw [List.map_map]
  apply List.map_congr_left
  intro it _
  by_cases h : it.id = id <;> simp [h]

theorem activeCount_setStatus_le (l : List QueueItem) (id : Nat)
    (st : DownloadStatus) (hst : st.isActive = false) :
    activeCount (setStatus l id st) ≤ activeCount l := by
  unfold activeCount
  induction l with
  | nil => exact Nat.le_refl _
  | cons a rest ih =>
    rw [show setStatus (a :: rest) id st =
        (if a.id = id then { a with status := st } else a) :: setStatus rest id st from rfl]
    by_cases h : a.id = id
    · rw [if_pos h]
      have hhead : ({ a with status := st } : QueueItem).status.isActive = false := hst
      simp [List.countP_cons, hhead]
      omega
    · rw [if_neg h]
      simp only [List.countP_cons]
      omega

theorem setStatus_not_mem (l : List QueueItem) (id : Nat) (st : DownloadStatus)
    (h : ∀ it ∈ l, it.id ≠ id) : setStatus l id st = l := by
  induction l with
  | nil => rfl
  | cons a rest ih =>
    rw [show setStatus (a :: rest) id st =
        (if a.id = id then { a with status := st } else a) :: setStatus rest id st from rfl]
    rw [if_neg (h a (List.mem_cons_self a rest)),
      ih (fun it hit => h it (List.mem_cons_of_mem _ hit))]

theorem activeCount_setStatus_active (l : List QueueItem) (id : Nat)
    (st : DownloadStatus) (hnd : (l.map (fun it => it.id)).Nodup)
    (itF : QueueItem) (hfind : l.find? (fun it => it.id == id) = some itF)
    (hact : itF.status.isActive = true) (hst : st.isActive = true) :
    activeCount (setStatus l id st) = activeCount l := by
  unfold activeCount
  induction l with
  | nil => exact absurd hfind (by simp)
  | cons a rest ih =>
    rw [List.map_cons, List.nodup_cons] at hnd
    by_cases ha : a.id = id
    · rw [List.find?_cons_of_pos _ (by simpa using ha)] at hfind
      have haF : a = itF := by injection hfind
      have htail : ∀ it ∈ rest, it.id ≠ id := by
        intro it hit heq
        have hmem : it.id ∈ List.map (fun it => it.id) rest :=
          List.mem_map_of_mem _ hit
        rw [heq, ← ha] at hmem
        exact hnd.1 hmem
      rw [show setStatus (a :: rest) id st =
          (if a.id = id then { a with status := st } else a) :: setStatus rest id st from rfl]
      rw [if_pos ha, setStatus_not_mem rest id st htail]
      have hleft : ({ a with status := st } : QueueItem).status.isActive = true := hst
      have hright : a.status.isActive = true := by rw [haF]; exact hact
      simp only [List.countP_cons, hleft, hright]
    · rw [List.find?_cons_of_neg _ (by simpa using ha)] at hfind
      rw [show setStatus (a :: rest) id st =
          (if a.id = id then { a with status := st } else a) :: setStatus rest id st from rfl]
      rw [if_neg ha]
      simp only [List.countP_cons, ih hnd.2 hfind]

theorem mem_setStatus_id (l : List QueueItem) (id : Nat) (st : DownloadStatus)
    (it : QueueItem) (hit : it ∈ setStatus l id st) : ∃ it0 ∈ l, it.id = it0.id := by
  obtain ⟨it0, hit0, heq⟩ := List.mem_map.mp hit
  refine ⟨it0, hit0, ?_⟩
  rw [← heq]
  by_cases h : it0.id = id <;> simp [h]

theorem workerTransition_active (st tgt : DownloadStatus)
    (h : workerTransition st tgt = true) (ht : tgt.isActive = true) :
    st.isActive = true := by
  revert h ht
  cases st <;> cases tgt <;> decide

theorem queueInv_tick (q : DownloadQueue) (h : QueueInv q) :
    QueueInv (schedulerTick q) := by
  obtain ⟨hcap, hnd, hb⟩ := h
  refine ⟨?_, ?_, ?_⟩
  · show activeCount (promotePendings (q.maxConcurrent - activeCount q.items) q.items) ≤
      q.maxConcurrent
    rw [activeCount_promotePendings]
    omega
  · show ((promotePendings (q.maxConcurrent - activeCount q.items) q.items).map
      (fun it => it.id)).Nodup
    rw [ids_promotePendings]
    exact hnd
  · intro it hit
    have hmem : it.id ∈ (promotePendings (q.maxConcurrent - activeCount q.items)
        q.items).map (fun it => it.id) := List.mem_map_of_mem _ hit
    rw [ids_promotePendings] at hmem
    obtain ⟨it0, hit0, heq⟩ := List.mem_map.mp hmem
    show it.id < q.nextId
    rw [← heq]
    exact hb it0 hit0

theorem queueInv_update (q : DownloadQueue) (items2 : List QueueItem)
    (hact : activeCount items2 ≤ q.maxConcurrent)
    (hnd : (items2.map (fun it => it.id)).Nodup)
    (hb : ∀ it ∈ items2, it.id < q.nextId) :
    QueueInv (schedulerTick { q with items := items2 }) :=
  queueInv_tick _ ⟨hact, hnd, hb⟩

theorem queueInv_setStatus_inactive (q : DownloadQueue) (id : Nat)
    (st : DownloadStatus) (hst : st.isActive = false) (h : QueueInv q) :
    QueueInv (schedulerTick { q with items := setStatus q.items id st }) := by
  obtain ⟨hcap, hnd, hb⟩ := h
  apply queueInv_update
  · exact Nat.le_trans (activeCount_setStatus_le _ _ _ hst) hcap
  · rw [ids_setStatus]
    exact hnd
  · intro it hit
    obtain ⟨it0, hit0, heq⟩ := mem_setStatus_id _ _ _ _ hit
    rw [heq]
    exact hb it0 hit0

theorem queueInv_filter (q : DownloadQueue) (p : QueueItem → Bool) (h : QueueInv q) :
    QueueInv (schedulerTick { q with items := q.items.filter p }) := by
  obtain ⟨hcap, hnd, hb⟩ := h
  apply queueInv_update
  · exact Nat.le_trans ((List.filter_sublist _).countP_le _) hcap
  · exact List.Nodup.sublist (List.Sublist.map _ (List.filter_sublist _)) hnd
  · intro it hit
    exact hb it (List.mem_of_mem_filter hit)

theorem queueInv_enqueue (q : DownloadQueue) (fileId : Nat) (h : QueueInv q) :
    QueueInv (addRomToQueue q fileId) := by
  obtain ⟨hcap, hnd, hb⟩ := h
  unfold addRomToQueue
  split
  · exact ⟨hcap, hnd, hb⟩
  · apply queueInv_tick
    refine ⟨?_, ?_, ?_⟩
    · show activeCount (q.items ++
        [({ id := q.nextId, fileId := fileId, status := DownloadStatus.pending } :
          QueueItem)]) ≤ q.maxConcurrent
      unfold activeCount
      rw [List.countP_append]
      have hsing : List.countP (fun it => it.status.isActive)
          [({ id := q.nextId, fileId := fileId, status := DownloadStatus.pending } :
            QueueItem)] = 0 := rfl
      rw [hsing]
      exact hcap
    · show ((q.items ++
        [({ id := q.nextId, fileId := fileId, status := DownloadStatus.pending } :
          QueueItem)]).map (fun it => it.id)).Nodup
      rw [List.map_append]
      refine List.Nodup.append hnd (List.nodup_singleton _) ?_
      intro x hx hy
      simp only [List.map_cons, List.map_nil, List.mem_singleton] at hy
      obtain ⟨it0, hit0, heq⟩ := List.mem_map.mp hx
      have hlt := hb it0 hit0
      rw [heq] at hlt
      rw [hy] at hlt
      exact absurd hlt (Nat.lt_irrefl _)
    · intro it hit
      show it.id < q.nextId + 1
      rcases List.mem_append.mp hit with h1 | h1
      · exact Nat.lt_succ_of_lt (hb it h1)
      · rw [List.mem_singleton] at h1
        rw [h1]
        exact Nat.lt_succ_self _

theorem queueInv_step (q q2 : DownloadQueue) (h : QueueInv q)
    (hs : QueueStep q q2) : QueueInv q2 := by
  cases hs with
  | enqueue fileId => exact queueInv_enqueue _ _ h
  | pause id =>
    unfold pauseDownload
    split
    · exact queueInv_setStatus_inactive _ _ _ rfl h
    · exact h
  | resume id =>
    unfold resumeDownload
    split
    · exact queueInv_setStatus_inactive _ _ _ rfl h
    · exact h
  | cancel id =>
    unfold cancelDownload
    split
    · split
      · exact queueInv_setStatus_inactive _ _ _ rfl h
      · exact h
    · exact h
  | retry id =>
    unfold retryDownload
    split
    · split
      · exact queueInv_setStatus_inactive _ _ _ rfl h
      · exact h
    · exact h
  | remove id => exact queueInv_filter _ _ h
  | clearDone => exact queueInv_filter _ _ h
  | clearFail => exact queueInv_filter _ _ h
  | advance id tgt =>
    unfold workerAdvance
    cases hst : statusOf q id with
    | none => exact h
    | some st =>
      dsimp only
      by_cases htr : workerTransition st tgt = true
      · rw [if_pos htr]
        by_cases htgt : tgt.isActive = true
        · obtain ⟨itF, hfindF, hstF⟩ :
              ∃ itF, q.items.find? (fun it => it.id == id) = some itF ∧
                itF.status = st := by
            unfold statusOf at hst
            obtain ⟨itF, h1, h2⟩ := Option.map_eq_some'.mp hst
            exact ⟨itF, h1, h2⟩
          have hactF : itF.status.isActive = true := by
            rw [hstF]
            exact workerTransition_active st tgt htr htgt
          obtain ⟨hcap, hnd, hb⟩ := h
          apply queueInv_update
          · rw [activeCount_setStatus_active q.items id tgt hnd itF hfindF hactF htgt]
            exact hcap
          · rw [ids_setStatus]
            exact hnd
          · intro it hit
            obtain ⟨it0, hit0, heq⟩ := mem_setStatus_id _ _ _ _ hit
            rw [heq]
            exact hb it0 hit0
        · exact queueInv_setStatus_inactive _ _ _ (Bool.not_eq_true _ ▸ htgt) h
      · rw [if_neg htr]
        exact h

theorem queueReachable_inv (q : DownloadQueue) (h : QueueReachable q) : QueueInv q := by
  induction h with
  | init cap h1 h5 =>
    exact ⟨Nat.zero_le _, List.nodup_nil, fun it hit => absurd hit (List.not_mem_nil it)⟩
  | step hq hs ih => exact queueInv_step _ _ ih hs

theorem promotePendings_first (pre : List QueueItem) (it : QueueItem)
    (post : List QueueItem) (n : Nat)
    (hpre : ∀ it2 ∈ pre, it2.status ≠ DownloadStatus.pending)
    (hit : it.status = DownloadStatus.pending) :
    promotePendings (n + 1) (pre ++ it :: post) =
      pre ++ { it with status := DownloadStatus.downloading } ::
        promotePendings n post := by
  induction pre with
  | nil => simp [promotePendings, hit]
  | cons a pre ih =>
    have ha : a.status ≠ DownloadStatus.pending := hpre a (List.mem_cons_self a pre)
    rw [List.cons_append, show promotePendings (n + 1) (a :: (pre ++ it :: post)) =
        a :: promotePendings (n + 1) (pre ++ it :: post) from by simp [promotePendings, ha]]
    rw [ih (fun x hx => hpre x (List.mem_cons_of_mem _ hx))]
    rfl

/-- Claim C1 (modelled from the spec, the queue manager's source not being
provided): at every reachable state of the download queue the number of items
in an ACTIVE status (DOWNLOADING, EXTRACTING, MOVING) is at most the configured
`maxConcurrent`; the scheduler tick is the identity when the active count has
reached the cap, and while the active count is strictly below the cap it
promotes the oldest PENDING item to DOWNLOADING. -/
theorem C1_concurrency_cap :
    (∀ q : DownloadQueue, QueueReachable q →
      activeCount q.items ≤ q.maxConcurrent) ∧
    (∀ q : DownloadQueue, q.maxConcurrent ≤ activeCount q.items →
      schedulerTick q = q) ∧
    (∀ q : DownloadQueue, ∀ pre it post,
      q.items = pre ++ it :: post →
      (∀ it2 ∈ pre, it2.status ≠ DownloadStatus.pending) →
      it.status = DownloadStatus.pending →
      activeCount q.items < q.maxConcurrent →
      (schedulerTick q).items =
        pre ++ { it with status := DownloadStatus.downloading } ::
          promotePendings (q.maxConcurrent - activeCount q.items - 1) post) := by
  refine ⟨?_, ?_, ?_⟩
  · intro q hq
    exact (queueReachable_inv q hq).1
  · intro q hle
    unfold schedulerTick
    rw [Nat.sub_eq_zero_of_le hle, promotePendings_zero]
  · intro q pre it post hitems hpre hit hlt
    obtain ⟨n, hn⟩ : ∃ n, q.maxConcurrent - activeCount q.items = n + 1 :=
      ⟨q.maxConcurrent - activeCount q.items - 1, by omega⟩
    show promotePendings (q.maxConcurrent - activeCount q.items) q.items = _
    rw [hn, Nat.add_sub_cancel, hitems]
    exact promotePendings_first pre it post n hpre hit

/-- Witness for C1: the queue reached by enqueueing file 5 into a fresh queue
with cap 2 satisfies the concurrency bound. -/
theorem C1_concurrency_cap_witness :
    activeCount (addRomToQueue
      { items := [], maxConcurrent := 2, nextId := 0 } 5).items ≤
    (addRomToQueue { items := [], maxConcurrent := 2, nextId := 0 } 5).maxConcurrent :=
  C1_concurrency_cap.1 _
    (QueueReachable.step (QueueReachable.init 2 (by norm_num) (by norm_num))
      (QueueStep.enqueue _ 5))
